import Mathlib

/-!
Verification of the praxis model/decode layer (`praxis/layers/models.py`,
`praxis/layer_utils.py`) against its natural-language specification.

The Python code is shallowly embedded: arrays become lists, floats become
rationals (`ℚ`), int32 casts become explicit truncation, raised exceptions
become `Except` errors, and the external search-strategy collaborators
(`flat_beam_search`, `beam_search`, `sample_decode`, `greedy_decode`) are
represented by a record of the arguments the dispatcher passes to them.
-/

set_option autoImplicit false

namespace Praxis

/-- Truncating cast of a rational to an integer, as performed by
`astype(jnp.int32)` on a float array (C-style truncation toward zero). -/
def toInt32 (q : ℚ) : Int :=
  q.num.tdiv (q.den : Int)

/-- Errors raised by the decode entry points: `ValueError`,
`NotImplementedError` and failed assertions (`assert` /
`asserts.not_none`). -/
inductive DecodeError where
  | valueError (msg : String)
  | notImplementedError (msg : String)
  | assertionError
  deriving DecidableEq, Repr

/-- Modelled from the spec: the `decoder_hparams` module is not under `src/`.
Per spec section 3, a decoder configuration carries `seqlen`, `eos_id`,
`max_decode_steps`, `fprop_for_prefix` and `min_prefix_len` in its base
class `DecoderHParams`. -/
structure DecoderParamsBase where
  seqlen : Int
  eosId : Int
  maxDecodeSteps : Option Int
  fpropForPrefix : Bool
  minPrefixLen : Int
  deriving DecidableEq, Repr

/-- Modelled from the spec: beam-search specific knobs of
`BeamSearchHParams` / `FlatBeamSearchHParams` (`beam_size`,
`length_norm_alpha`). -/
structure BeamFields where
  beamSize : Int
  lengthNormAlpha : ℚ
  deriving DecidableEq, Repr

/-- Modelled from the spec: sampling specific knobs of
`SampleDecoderHParams` (`num_samples`, `k`, `temperature`,
`lazy_prefix_broadcast`). -/
structure SampleFields where
  numSamples : Int
  k : Int
  temperature : ℚ
  lazyPrefixBroadcast : Bool
  deriving DecidableEq, Repr

/-- Modelled from the spec: the concrete variants of `DecoderHParams`.
`base` stands for a `DecoderHParams` instance that is none of the four
search variants (the fallback branch of the `isinstance` chain). -/
inductive DecoderHParams where
  | flatBeam (c : DecoderParamsBase) (b : BeamFields)
  | beam (c : DecoderParamsBase) (b : BeamFields)
  | sample (c : DecoderParamsBase) (s : SampleFields)
  | greedy (c : DecoderParamsBase)
  | base (c : DecoderParamsBase)
  deriving DecidableEq, Repr

/-- The base-class fields shared by every decoder variant. -/
def DecoderHParams.common : DecoderHParams → DecoderParamsBase
  | .flatBeam c _ => c
  | .beam c _ => c
  | .sample c _ => c
  | .greedy c => c
  | .base c => c

/-- Whether the variant is `BeamSearchHParams` (whose decode branch
executes `assert p.decoder.fprop_for_prefix`). -/
def DecoderHParams.isBeamVariant : DecoderHParams → Bool
  | .beam _ _ => true
  | _ => false

/-- The value held in the `p.decoder` field.  `notDecoderType` models a
configuration object that is not a `DecoderHParams` at all, which
`LanguageModel.decode` rejects with a `ValueError` (models.py line 219). -/
inductive DecoderSetting where
  | valid (d : DecoderHParams)
  | notDecoderType
  deriving DecidableEq, Repr

/-- The input batch of `LanguageModel.decode`: `ids`, `paddings` and the
optional `prefix_lengths`, `suffix`, `suffix_lengths` fields. -/
structure LmInputBatch where
  ids : List (List Int)
  paddings : List (List ℚ)
  prefixLengths : Option (List Int)
  suffix : Option (List (List Int))
  suffixLengths : Option (List Int)
  deriving DecidableEq, Repr

/-- Number of rows of the batch (`input_batch.ids.shape[0]`). -/
def LmInputBatch.batchSize (b : LmInputBatch) : Nat :=
  b.ids.length

/-- The prefix buffer length (`input_batch.ids.shape[1]`). -/
def lmMaxPrefixLen (b : LmInputBatch) : Nat :=
  (b.ids.headD []).length

/-- Per-row count of non-padding tokens,
`jnp.sum(1 - input_batch.paddings.astype(jnp.int32), axis=1)`
(models.py line 232): the paddings are cast to integers first, then
summed in integer arithmetic. -/
def rowMaxval (paddings : List (List ℚ)) (i : Nat) : Int :=
  ((paddings.getD i []).map (fun q => 1 - toInt32 q)).sum

/-- Prefix lengths used by `LanguageModel.decode` (models.py lines
226-236): the batch's `prefix_lengths` when supplied, otherwise one
`jax.random.randint(key, [batch_size], minval, maxval + 1)` draw per row
with `maxval` the row's non-padding count and
`minval = min(maxval, min_prefix_len)`.  The random draw is abstracted
as a function `rand i lo hi` expected to return a value in `[lo, hi)`. -/
def lmPrefixLengths (batch : LmInputBatch) (minPrefixLen : Int)
    (rand : Nat → Int → Int → Int) : List Int :=
  match batch.prefixLengths with
  | some pl => pl
  | none =>
      (List.range batch.batchSize).map (fun i =>
        let maxval := rowMaxval batch.paddings i
        rand i (min maxval minPrefixLen) (maxval + 1))

/-- Modelled from the spec: `sample_decode.right_align_prefix_ids` is not
under `src/`.  Per spec section 4.1, the prefix tokens and paddings are
right-aligned within a buffer of length `max_prefix_len`: tokens pushed
to the end, the left side zero-padded with padding value 1. -/
def rightAlignPrefixIds (ids : List (List Int)) (prefixLengths : List Int) :
    List (List Int) × List (List ℚ) :=
  let aligned := (ids.zip prefixLengths).map (fun rp =>
    let row := rp.1
    let n := rp.2.toNat
    List.replicate (row.length - n) (0 : Int) ++ row.take n)
  let pads := (ids.zip prefixLengths).map (fun rp =>
    let row := rp.1
    let n := rp.2.toNat
    List.replicate (row.length - n) (1 : ℚ) ++ List.replicate (min n row.length) (0 : ℚ))
  (aligned, pads)

/-- Modelled from the spec: `sample_decode.right_align_segment_position`
is not under `src/`.  Positions of the right-aligned prefix: position 0
at the first real prefix token, so that `max_prefix_len - 1` carries the
last real prefix token. -/
def rightAlignSegmentPos (prefixLengths : List Int) (maxPrefixLen : Nat) :
    List (List Int) :=
  prefixLengths.map (fun n =>
    (List.range maxPrefixLen).map (fun (j : Nat) =>
      if (j : Int) < (maxPrefixLen : Int) - n then 0
      else (j : Int) - ((maxPrefixLen : Int) - n)))

/-- The segment-id mask of models.py lines 250-253:
`jnp.where(jnp.arange(L) < (L - prefix_lengths)[:, None], 0, 1)` —
left-padding positions get segment 0, real prefix positions segment 1. -/
def fpropSegmentIdsOf (prefixLengths : List Int) (maxPrefixLen : Nat) :
    List (List Int) :=
  prefixLengths.map (fun n =>
    (List.range maxPrefixLen).map (fun (j : Nat) =>
      if (j : Int) < (maxPrefixLen : Int) - n then (0 : Int) else 1))

/-- Right-pad every row of a 2-d buffer by `m` copies of constant `c`
(`jnp.pad(x, [[0, 0], [0, m]], constant_values=c)`). -/
def pad2D {α : Type} (rows : List (List α)) (m : Nat) (c : α) : List (List α) :=
  rows.map (fun row => row ++ List.replicate m c)

/-- The values derived by `LanguageModel.decode` before dispatching to a
search strategy (models.py lines 225-270). -/
structure DecodeInit where
  prefixLengths : List Int
  maxPrefixLen : Nat
  seqlen : Int
  startTimeStep : Int
  fpropInputIds : List (List Int)
  fpropInputPaddings : List (List ℚ)
  fpropSegmentIds : Option (List (List Int))
  fpropSegmentPos : Option (List (List Int))
  inputIds : List (List Int)
  inputPaddings : List (List ℚ)
  statePaddingSize : Int
  deriving DecidableEq, Repr

/-- The initializer part of `LanguageModel.decode` (models.py lines
237-270).  With `fprop_for_prefix` set it requires `max_decode_steps`
(`asserts.not_none`, line 239), right-aligns the prefix, builds the
left-padding segment mask and extends the buffers by `max_decode_steps`
pad-valued steps; otherwise it uses `seqlen` directly with a single
dummy fprop step whose padding value is 1. -/
def lmInitFor (c : DecoderParamsBase) (batch : LmInputBatch)
    (prefixLengths : List Int) : Except DecodeError DecodeInit :=
  let maxPrefixLen := lmMaxPrefixLen batch
  if c.fpropForPrefix then
    match c.maxDecodeSteps with
    | none => .error .assertionError
    | some mds =>
        let fprop := rightAlignPrefixIds batch.ids prefixLengths
        let fsegPos := rightAlignSegmentPos prefixLengths maxPrefixLen
        let fsegIds := fpropSegmentIdsOf prefixLengths maxPrefixLen
        .ok ⟨prefixLengths, maxPrefixLen, (maxPrefixLen : Int) + mds,
          (maxPrefixLen : Int) - 1, fprop.1, fprop.2, some fsegIds,
          some fsegPos, pad2D fprop.1 mds.toNat 0, pad2D fprop.2 mds.toNat 1,
          mds⟩
  else
    .ok ⟨prefixLengths, maxPrefixLen, c.seqlen, 0,
      List.replicate batch.batchSize [(0 : Int)],
      List.replicate batch.batchSize [(1 : ℚ)], none, none,
      batch.ids, batch.paddings, c.seqlen - 1⟩

/-- A record of the one search-strategy invocation `LanguageModel.decode`
performs, holding the arguments passed to the external strategy
function. -/
inductive StrategyCall where
  | flatBeamSearch (inputIds : List (List Int)) (inputPaddings : List (List ℚ))
      (seqlen : Int) (beamSize : Int) (maxDecodeSteps : Option Int)
      (eosId : Int) (lengthNormAlpha : ℚ)
  | beamSearch (fpropInputIds : List (List Int))
      (fpropInputPaddings : List (List ℚ)) (d : DecoderHParams)
  | sampleDecode (inputIds : List (List Int)) (inputPaddings : List (List ℚ))
      (seqlen : Int) (numSamples : Int) (k : Int) (fpropForPrefix : Bool)
      (temperature : ℚ) (maxPrefixLen : Int) (maxDecodeSteps : Option Int)
      (prefixLengths : List Int) (eosId : Int)
      (suffixIds : Option (List (List Int)))
      (suffixLengths : Option (List Int))
  | greedyDecode (inputIds : List (List Int)) (inputPaddings : List (List ℚ))
      (seqlen : Int) (fpropForPrefix : Bool) (maxPrefixLen : Int)
      (maxDecodeSteps : Option Int) (prefixLengths : List Int) (eosId : Int)
  deriving DecidableEq, Repr

/-- Which of the four search strategies a call invokes. -/
inductive StrategyKind where
  | flatBeam
  | beam
  | sample
  | greedy
  deriving DecidableEq, Repr

/-- The strategy a `StrategyCall` belongs to. -/
def StrategyCall.kind : StrategyCall → StrategyKind
  | .flatBeamSearch _ _ _ _ _ _ _ => .flatBeam
  | .beamSearch _ _ _ => .beam
  | .sampleDecode _ _ _ _ _ _ _ _ _ _ _ _ _ => .sample
  | .greedyDecode _ _ _ _ _ _ _ _ => .greedy

/-- The `suffix_ids` argument passed to the sampler, `none` for the other
strategies. -/
def StrategyCall.suffixIdsArg : StrategyCall → Option (List (List Int))
  | .sampleDecode _ _ _ _ _ _ _ _ _ _ _ sfx _ => sfx
  | _ => none

/-- The strategy expected for each recognized decoder variant; `none` for
a `DecoderHParams` that is none of the four. -/
def DecoderHParams.expectedKind : DecoderHParams → Option StrategyKind
  | .flatBeam _ _ => some .flatBeam
  | .beam _ _ => some .beam
  | .sample _ _ => some .sample
  | .greedy _ => some .greedy
  | .base _ => none

/-- The `isinstance` dispatch of `LanguageModel.decode` (models.py lines
283-390): flat beam, beam (which asserts `fprop_for_prefix`), sampling
(which drops the suffix unless `lazy_prefix_broadcast` is set) and
greedy; any other `DecoderHParams` raises `NotImplementedError`. -/
def lmDispatch (d : DecoderHParams) (batch : LmInputBatch)
    (init : DecodeInit) : Except DecodeError StrategyCall :=
  match d with
  | .flatBeam c b =>
      .ok (.flatBeamSearch init.inputIds init.inputPaddings init.seqlen
        b.beamSize c.maxDecodeSteps c.eosId b.lengthNormAlpha)
  | .beam c b =>
      if c.fpropForPrefix then
        .ok (.beamSearch init.fpropInputIds init.fpropInputPaddings (.beam c b))
      else .error .assertionError
  | .sample c s =>
      let sfx :=
        match batch.suffix, batch.suffixLengths with
        | some suffix, some suffixLengths =>
            if s.lazyPrefixBroadcast then (some suffix, some suffixLengths)
            else (none, none)
        | _, _ => (none, none)
      .ok (.sampleDecode init.inputIds init.inputPaddings init.seqlen
        s.numSamples s.k c.fpropForPrefix s.temperature
        (init.maxPrefixLen : Int) c.maxDecodeSteps init.prefixLengths
        c.eosId sfx.1 sfx.2)
  | .greedy c =>
      .ok (.greedyDecode init.inputIds init.inputPaddings init.seqlen
        c.fpropForPrefix (init.maxPrefixLen : Int) c.maxDecodeSteps
        init.prefixLengths c.eosId)
  | .base _ =>
      .error (.notImplementedError "Decoding algorithm is not implemented.")

/-- `LanguageModel.decode` (models.py lines 196-390), embedded up to the
single strategy invocation: validates the decoder config, derives prefix
lengths, initializes the decode inputs and dispatches on the concrete
decoder variant.  On success it returns the derived initial values and
the one strategy call made; every raised exception is an `Except.error`
carrying no result. -/
def languageModelDecode (setting : DecoderSetting) (batch : LmInputBatch)
    (rand : Nat → Int → Int → Int) :
    Except DecodeError (DecodeInit × StrategyCall) :=
  match setting with
  | .notDecoderType =>
      .error (.valueError "p.decoder must be DecoderHParams type")
  | .valid d =>
      if d.common.seqlen ≤ 0 then
        .error (.valueError "Must set p.decoder.seqlen > 0")
      else
        let prefixLengths := lmPrefixLengths batch d.common.minPrefixLen rand
        match lmInitFor d.common batch prefixLengths with
        | .error e => .error e
        | .ok init =>
            match lmDispatch d batch init with
            | .error e => .error e
            | .ok call => .ok (init, call)

/-- The accuracy formula shared by `_compute_xent_loss_helper`
(models.py lines 87-88) and `BertModel.compute_loss` (lines 831-832):
`jnp.sum((labels == predicted_labels) * weights) / jnp.maximum(num_preds, 1)`,
with the arrays flattened to lists. -/
def meanAccOf (labels predicted : List Int) (weights : List ℚ)
    (numPreds : ℚ) : ℚ :=
  (((labels.zip predicted).zip weights).map
    (fun q => if q.1.1 = q.1.2 then q.2 else 0)).sum / max numPreds 1

/-- The `mean_acc` of `_compute_xent_loss_helper`, for a flat batch where
`labels` and `weights` are taken directly from the input batch and
`num_preds = predictions.total_weight`. -/
def computeXentMeanAcc (labels predicted : List Int) (weights : List ℚ)
    (totalWeight : ℚ) : ℚ :=
  meanAccOf labels predicted weights totalWeight

/-- The `mean_acc` of `BertModel.compute_loss`, where the weights are the
augmented mask positions and `num_preds = predictions.total_weight`. -/
def bertMeanAcc (labels predicted : List Int) (augmentedPos : List ℚ)
    (totalWeight : ℚ) : ℚ :=
  meanAccOf labels predicted augmentedPos totalWeight

/-- One-hot row over `vocab` classes, `jax.nn.one_hot(classId, vocab)`. -/
def oneHot (vocab : Nat) (classId : Int) : List ℚ :=
  (List.range vocab).map (fun c => if (c : Int) = classId then 1 else 0)

/-- One row of the smoothed label distribution built by
`SequenceModel.compute_predictions` (models.py lines 501-507) and
identically by `BertModel.compute_predictions` (lines 785-790):
`(1 - p) * one_hot + fill_prob * (1 - one_hot)` with
`fill_prob = p / (vocab_size - 1)`. -/
def smoothedClassProbabilities (labelSmoothingProb : ℚ) (vocab : Nat)
    (classId : Int) : List ℚ :=
  let fillProb := labelSmoothingProb / ((vocab : ℚ) - 1)
  (oneHot vocab classId).map
    (fun o => (1 - labelSmoothingProb) * o + fillProb * (1 - o))

/-- A `NestedMap` viewed as an association list from field names to
values; python dicts keep one entry per key. -/
abbrev NMap (α : Type) : Type :=
  List (String × α)

/-- Lookup of a field (`m[k]` / `k in m`). -/
def NMap.get? {α : Type} : NMap α → String → Option α
  | [], _ => none
  | kv :: rest, k => if kv.1 = k then some kv.2 else NMap.get? rest k

/-- Dict assignment `m[k] = v`: replaces the value of an existing key,
otherwise appends the new entry. -/
def NMap.setKey {α : Type} : NMap α → String → α → NMap α
  | [], k, v => [(k, v)]
  | kv :: rest, k, v =>
      if kv.1 = k then (k, v) :: rest else kv :: NMap.setKey rest k v

/-- Python `del m.k`: removes the entry for `k`. -/
def NMap.delKey {α : Type} (m : NMap α) (k : String) : NMap α :=
  m.filter (fun kv => decide (kv.1 ≠ k))

/-- Python `m.update(src)`: assigns every entry of `src` into `m`,
overwriting existing keys. -/
def NMap.updateWith {α : Type} (m src : NMap α) : NMap α :=
  src.foldl (fun acc kv => NMap.setKey acc kv.1 kv.2) m

/-- Modelled from the spec: `sample_decode.greedy_decode` is not under
`src/`.  Per spec section 3, its `DecodeResult` output carries
`output_ids`, `decode_lengths`, `prefix_lengths` and `logprobs`; the
field values are abstract parameters here. -/
def greedyDecodeResult {α : Type} (outputIds decodeLengths prefixLengths
    logprobs : α) : NMap α :=
  [("output_ids", outputIds), ("decode_lengths", decodeLengths),
   ("prefix_lengths", prefixLengths), ("logprobs", logprobs)]

/-- The result map built by `SequenceModel.decode` (models.py lines
547-579): after checking `seqlen > 0` it runs greedy decode, deletes
`prefix_lengths` from the greedy output and then merges the entire input
batch into the result with `result.update(input_batch)`. -/
def sequenceModelDecode {α : Type} (seqlen : Int) (inputBatch : NMap α)
    (outputIds decodeLengths prefixLengths logprobs : α) :
    Except DecodeError (NMap α) :=
  if seqlen ≤ 0 then
    .error (.valueError "Must set p.decoder.seqlen > 0")
  else
    .ok (NMap.updateWith
      (NMap.delKey
        (greedyDecodeResult outputIds decodeLengths prefixLengths logprobs)
        "prefix_lengths")
      inputBatch)

/-- A PAX layer as seen by the registry: `inspect.getmodule(layer).__name__`
and the layer's class name (used by `LayerInfo.to_text`). -/
structure Layer where
  moduleName : String
  className : String
  deriving DecidableEq, Repr

/-- `LayerInfo` of layer_utils.py: the layer and a conflict flag. -/
structure LayerInfo where
  layer : Layer
  conflict : Bool
  deriving DecidableEq, Repr

/-- `LayerInfo.to_text`. -/
def LayerInfo.toText (li : LayerInfo) : String :=
  li.layer.className

/-- The process-wide mutable mapping `pax_layer_registry`
(layer_utils.py line 27), modelled as explicit state. -/
abbrev Registry : Type :=
  List (String × LayerInfo)

/-- Lookup in the registry mapping. -/
def Registry.lookupKey : Registry → String → Option LayerInfo
  | [], _ => none
  | kv :: rest, k => if kv.1 = k then some kv.2 else Registry.lookupKey rest k

/-- A `LayerRegistry` instance: it has no fields of its own, all state
lives in the process-wide `pax_layer_registry`. -/
structure LayerRegistry where
  deriving DecidableEq, Repr

/-- The key under which `add_layer` stores a layer:
`name + ' : ' + inspect.getmodule(layer).__name__`. -/
def layerKey (name : String) (layer : Layer) : String :=
  name ++ " : " ++ layer.moduleName

/-- Dict assignment `pax_layer_registry[key] = layer_info`: replaces the
value of an existing key, otherwise appends the new entry. -/
def Registry.setKey : Registry → String → LayerInfo → Registry
  | [], k, v => [(k, v)]
  | kv :: rest, k, v =>
      if kv.1 = k then (k, v) :: rest else kv :: Registry.setKey rest k v

/-- `LayerRegistry.add_layer` (layer_utils.py lines 48-58): stores
`LayerInfo(layer, conflict)` under `layerKey` in the process-wide
mapping.  The instance the method is called on carries no state, so only
the global registry state is threaded through. -/
def addLayer (reg : LayerRegistry) (st : Registry) (name : String)
    (layer : Layer) (conflict : Bool) : Registry :=
  let _ := reg
  Registry.setKey st (layerKey name layer) ⟨layer, conflict⟩

/-- `LayerRegistry.get_registry` (layer_utils.py lines 60-61): returns
the process-wide mapping, independently of the instance. -/
def getRegistry (reg : LayerRegistry) (st : Registry) : Registry :=
  let _ := reg
  st

/-! Helper lemmas. -/

/-- Element access of a mapped range. -/
theorem getD_map_range {α : Type} (f : Nat → α) (L i : Nat) (d : α)
    (h : i < L) : ((List.range L).map f).getD i d = f i := by
  rw [List.getD_eq_getElem?_getD, List.getElem?_map, List.getElem?_range h]
  rfl

/-- Element access of a mapped list. -/
theorem getD_map_of_lt {α β : Type} (f : α → β) (l : List α) (i : Nat)
    (d : α) (d2 : β) (h : i < l.length) :
    (l.map f).getD i d2 = f (l.getD i d) := by
  rw [List.getD_eq_getElem?_getD, List.getElem?_map,
    List.getElem?_eq_getElem h, List.getD_eq_getElem?_getD,
    List.getElem?_eq_getElem h]
  rfl

/-- The accuracy numerator is non-negative and bounded by the total
weight, whenever all weights are non-negative. -/
theorem accNumerator_bounds (lp : List (Int × Int)) (ws : List ℚ)
    (hw : ∀ w ∈ ws, 0 ≤ w) :
    0 ≤ ((lp.zip ws).map (fun q => if q.1.1 = q.1.2 then q.2 else 0)).sum ∧
    ((lp.zip ws).map (fun q => if q.1.1 = q.1.2 then q.2 else 0)).sum
      ≤ ws.sum := by
  induction lp generalizing ws with
  | nil =>
      simp only [List.zip_nil_left, List.map_nil, List.sum_nil]
      exact ⟨le_refl 0, List.sum_nonneg hw⟩
  | cons p rest ih =>
      cases ws with
      | nil => simp
      | cons w ws2 =>
          have hw0 : 0 ≤ w := hw w (List.mem_cons_self w ws2)
          have hw2 : ∀ x ∈ ws2, 0 ≤ x :=
            fun x hx => hw x (List.mem_cons_of_mem w hx)
          obtain ⟨ih1, ih2⟩ := ih ws2 hw2
          simp only [List.zip_cons_cons, List.map_cons, List.sum_cons]
          constructor
          · apply add_nonneg _ ih1
            by_cases hpq : p.1 = p.2 <;> simp [hpq, hw0]
          · apply add_le_add _ ih2
            by_cases hpq : p.1 = p.2 <;> simp [hpq, hw0]

/-- Lookup after dict assignment. -/
theorem NMap.get?_setKey {α : Type} (m : NMap α) (k k2 : String) (v : α) :
    NMap.get? (NMap.setKey m k v) k2
      = if k = k2 then some v else NMap.get? m k2 := by
  induction m with
  | nil => simp [NMap.setKey, NMap.get?]
  | cons kv rest ih =>
      by_cases h : kv.1 = k
      · by_cases h2 : k = k2 <;> simp [NMap.setKey, NMap.get?, h, h2]
      · by_cases h2 : kv.1 = k2
        · have hne : ¬(k = k2) := fun he => h (he ▸ h2)
          have hne2 : ¬(k2 = k) := fun he => hne he.symm
          simp [NMap.setKey, NMap.get?, h, h2, hne, hne2]
        · simp [NMap.setKey, NMap.get?, h, h2, ih]

/-- A key absent from the key list is not found. -/
theorem NMap.get?_eq_none_of_not_mem {α : Type} (m : NMap α) (k : String)
    (h : k ∉ m.map Prod.fst) : NMap.get? m k = none := by
  induction m with
  | nil => rfl
  | cons kv rest ih =>
      simp only [List.map_cons, List.mem_cons] at h
      push_neg at h
      obtain ⟨h1, h2⟩ := h
      have hne : ¬(kv.1 = k) := fun he => h1 he.symm
      simp [NMap.get?, hne, ih h2]

/-- Lookup after a python-style `dict.update`, for a source dict with
distinct keys. -/
theorem NMap.get?_updateWith {α : Type} (src : NMap α) (m : NMap α)
    (k : String) (hnd : (src.map Prod.fst).Nodup) :
    NMap.get? (NMap.updateWith m src) k
      = match NMap.get? src k with
        | some v => some v
        | none => NMap.get? m k := by
  induction src generalizing m with
  | nil => simp [NMap.updateWith, NMap.get?]
  | cons kv rest ih =>
      simp only [List.map_cons, List.nodup_cons] at hnd
      obtain ⟨hk, hnd2⟩ := hnd
      have hstep : NMap.updateWith m (kv :: rest)
          = NMap.updateWith (NMap.setKey m kv.1 kv.2) rest := rfl
      rw [hstep, ih _ hnd2]
      by_cases h : kv.1 = k
      · subst h
        rw [NMap.get?_eq_none_of_not_mem rest kv.1 hk]
        simp [NMap.get?, NMap.get?_setKey]
      · simp [NMap.get?, h, NMap.get?_setKey]

/-- Deleting a key removes it. -/
theorem NMap.get?_delKey {α : Type} (m : NMap α) (k : String) :
    NMap.get? (NMap.delKey m k) k = none := by
  induction m with
  | nil => rfl
  | cons kv rest ih =>
      by_cases h : kv.1 = k
      · simpa [NMap.delKey, List.filter_cons, h] using ih
      · simpa [NMap.delKey, List.filter_cons, h, NMap.get?] using ih

/-- Lookup after registry assignment. -/
theorem Registry.lookupKey_setKey (st : Registry) (k k2 : String)
    (v : LayerInfo) :
    Registry.lookupKey (Registry.setKey st k v) k2
      = if k = k2 then some v else st.lookupKey k2 := by
  induction st with
  | nil => simp [Registry.setKey, Registry.lookupKey]
  | cons kv rest ih =>
      by_cases h : kv.1 = k
      · by_cases h2 : k = k2 <;>
          simp [Registry.setKey, Registry.lookupKey, h, h2]
      · by_cases h2 : kv.1 = k2
        · have hne : ¬(k = k2) := fun he => h (he ▸ h2)
          have hne2 : ¬(k2 = k) := fun he => hne he.symm
          simp [Registry.setKey, Registry.lookupKey, h, h2, hne, hne2]
        · simp [Registry.setKey, Registry.lookupKey, h, h2, ih]

/-! Claim theorems. -/

/-- C5: whenever the per-token weights are non-negative and
`num_preds = predictions.total_weight` equals their sum, the `mean_acc`
computed by `_compute_xent_loss_helper` (and by the identical formula in
`BertModel.compute_loss`) lies in `[0, 1]` when `num_preds > 0`, equals
`0` when `num_preds == 0`, and its denominator `max(num_preds, 1)` is
never zero. -/
theorem mean_acc_in_unit_interval (labels predicted : List Int)
    (weights : List ℚ) (numPreds : ℚ)
    (hw : ∀ w ∈ weights, 0 ≤ w) (hsum : numPreds = weights.sum) :
    (0 < numPreds →
      0 ≤ computeXentMeanAcc labels predicted weights numPreds ∧
      computeXentMeanAcc labels predicted weights numPreds ≤ 1) ∧
    (numPreds = 0 →
      computeXentMeanAcc labels predicted weights numPreds = 0) ∧
    (0 < max numPreds 1) ∧
    bertMeanAcc labels predicted weights numPreds
      = computeXentMeanAcc labels predicted weights numPreds := by
  obtain ⟨hnum0, hnumle⟩ :=
    accNumerator_bounds (labels.zip predicted) weights hw
  have hden : (0 : ℚ) < max numPreds 1 :=
    lt_of_lt_of_le one_pos (le_max_right numPreds 1)
  refine ⟨?_, ?_, hden, rfl⟩
  · intro _
    constructor
    · exact div_nonneg hnum0 (le_of_lt hden)
    · rw [computeXentMeanAcc, meanAccOf, div_le_one hden]
      exact le_trans hnumle (hsum ▸ le_max_left numPreds 1)
  · intro h0
    have hws : weights.sum = 0 := by rw [← hsum, h0]
    have hz : (((labels.zip predicted).zip weights).map
        (fun q => if q.1.1 = q.1.2 then q.2 else 0)).sum = 0 :=
      le_antisymm (hws ▸ hnumle) hnum0
    rw [computeXentMeanAcc, meanAccOf, hz, zero_div]

/-- Witness for C5 at a concrete batch: two tokens, one predicted
correctly, weights one half each. -/
theorem mean_acc_in_unit_interval_witness :
    (0 < (1 : ℚ) →
      0 ≤ computeXentMeanAcc [1, 2] [1, 3] [1/2, 1/2] 1 ∧
      computeXentMeanAcc [1, 2] [1, 3] [1/2, 1/2] 1 ≤ 1) ∧
    ((1 : ℚ) = 0 → computeXentMeanAcc [1, 2] [1, 3] [1/2, 1/2] 1 = 0) ∧
    (0 < max (1 : ℚ) 1) ∧
    bertMeanAcc [1, 2] [1, 3] [1/2, 1/2] 1
      = computeXentMeanAcc [1, 2] [1, 3] [1/2, 1/2] 1 :=
  mean_acc_in_unit_interval [1, 2] [1, 3] [1/2, 1/2] 1
    (by intro w hw; fin_cases hw <;> norm_num) (by norm_num [List.sum_cons])

/-- C6 counterexample: with `label_smoothing_prob = 0.1` and
`vocab_size = 4`, the smoothed distribution assigns exactly `0.9` to the
true class, not `0.9 + fill_prob` as the claim states. -/
theorem label_smoothing_true_class_counterexample :
    (smoothedClassProbabilities (1/10) 4 0).getD 0 0 = 9/10 ∧
    ¬((smoothedClassProbabilities (1/10) 4 0).getD 0 0
        = 9/10 + (1/10) / 3) := by
  constructor <;>
    norm_num [smoothedClassProbabilities, oneHot, List.range_succ]

/-- C6 (amended): with `label_smoothing_prob = 0.1` and `vocab_size = 4`
the smoothed distribution assigns `1 - 0.1 = 0.9` to the true class,
`fill_prob = 0.1/3` to each of the other 3 classes, and each row sums to
`1`. -/
theorem label_smoothing_distribution :
    smoothedClassProbabilities (1/10) 4 0 = [9/10, 1/30, 1/30, 1/30] ∧
    smoothedClassProbabilities (1/10) 4 1 = [1/30, 9/10, 1/30, 1/30] ∧
    smoothedClassProbabilities (1/10) 4 2 = [1/30, 1/30, 9/10, 1/30] ∧
    smoothedClassProbabilities (1/10) 4 3 = [1/30, 1/30, 1/30, 9/10] ∧
    (smoothedClassProbabilities (1/10) 4 0).sum = 1 ∧
    (smoothedClassProbabilities (1/10) 4 1).sum = 1 ∧
    (smoothedClassProbabilities (1/10) 4 2).sum = 1 ∧
    (smoothedClassProbabilities (1/10) 4 3).sum = 1 := by
  refine ⟨?_, ?_, ?_, ?_, ?_, ?_, ?_, ?_⟩ <;>
    norm_num [smoothedClassProbabilities, oneHot, List.range_succ,
      List.sum_cons]

/-- C8 counterexample: an input batch with `src`/`tgt` sub-batches that
itself carries a `prefix_lengths` field re-introduces that field into
the decode result through `result.update(input_batch)`, so the result
does contain `prefix_lengths`. -/
theorem sequence_decode_prefix_lengths_counterexample :
    (sequenceModelDecode 5 [("src", 0), ("tgt", 1), ("prefix_lengths", 2)]
        9 8 7 6).map (fun r => NMap.get? r "prefix_lengths")
      = .ok (some 2) ∧ some 2 ≠ (none : Option Nat) := by
  constructor
  · rfl
  · decide

/-- C8 (amended): `SequenceModel.decode` always drops the
`prefix_lengths` field produced by greedy decode, so the result contains
`prefix_lengths` only when the input batch itself supplies it; every
field of the input batch is carried through into the result
unchanged. -/
theorem sequence_decode_drops_prefix_lengths (α : Type)
    (inputBatch : NMap α) (seqlen : Int)
    (outputIds decodeLengths prefixLengths logprobs : α)
    (hseq : 0 < seqlen) (hnd : (inputBatch.map Prod.fst).Nodup) :
    ∃ res, sequenceModelDecode seqlen inputBatch outputIds decodeLengths
        prefixLengths logprobs = .ok res ∧
      (∀ k v, NMap.get? inputBatch k = some v → NMap.get? res k = some v) ∧
      (NMap.get? inputBatch "prefix_lengths" = none →
        NMap.get? res "prefix_lengths" = none) := by
  refine ⟨NMap.updateWith
    (NMap.delKey (greedyDecodeResult outputIds decodeLengths prefixLengths
      logprobs) "prefix_lengths") inputBatch, ?_, ?_, ?_⟩
  · rw [sequenceModelDecode, if_neg (not_le.mpr hseq)]
  · intro k v hkv
    rw [NMap.get?_updateWith inputBatch _ k hnd, hkv]
  · intro hnone
    rw [NMap.get?_updateWith inputBatch _ "prefix_lengths" hnd, hnone,
      NMap.get?_delKey]

/-- Witness for C8 at a concrete batch without a `prefix_lengths`
field. -/
theorem sequence_decode_drops_prefix_lengths_witness :
    ∃ res, sequenceModelDecode 5 [("src", 0), ("tgt", 1)] 9 8 7 6
        = .ok res ∧
      (∀ k v, NMap.get? [("src", 0), ("tgt", 1)] k = some v →
        NMap.get? res k = some v) ∧
      (NMap.get? [("src", 0), ("tgt", 1)] "prefix_lengths" = none →
        NMap.get? res "prefix_lengths" = none) :=
  sequence_decode_drops_prefix_lengths Nat [("src", 0), ("tgt", 1)] 5
    9 8 7 6 (by norm_num) (by decide)

/-- C10: all `LayerRegistry` instances read and write one process-wide
mapping: after any instance's `add_layer`, `get_registry` on any other
instance sees the new entry under `name + ' : ' + module`, a later
`add_layer` with the same name and module overwrites it, and all other
keys are unchanged. -/
theorem layer_registry_shared_state (st : Registry)
    (r r2 r3 : LayerRegistry) (name : String) (layer layer2 : Layer)
    (conflict conflict2 : Bool) :
    (getRegistry r2 (addLayer r st name layer conflict)).lookupKey
        (layerKey name layer) = some ⟨layer, conflict⟩ ∧
    (layer2.moduleName = layer.moduleName →
      (getRegistry r3 (addLayer r (addLayer r st name layer conflict)
          name layer2 conflict2)).lookupKey (layerKey name layer)
        = some ⟨layer2, conflict2⟩) ∧
    (∀ k, k ≠ layerKey name layer →
      (getRegistry r2 (addLayer r st name layer conflict)).lookupKey k
        = st.lookupKey k) := by
  refine ⟨?_, ?_, ?_⟩
  · rw [getRegistry, addLayer, Registry.lookupKey_setKey, if_pos rfl]
  · intro hmod
    have hkey : layerKey name layer2 = layerKey name layer := by
      rw [layerKey, layerKey, hmod]
    rw [getRegistry, addLayer, addLayer, hkey,
      Registry.lookupKey_setKey, if_pos rfl]
  · intro k hk
    rw [getRegistry, addLayer, Registry.lookupKey_setKey,
      if_neg (fun he => hk he.symm)]

/-- Witness for C10 at concrete layers sharing a module name. -/
theorem layer_registry_shared_state_witness :
    (getRegistry ⟨⟩ (addLayer ⟨⟩ [] "lm" ⟨"praxis.layers", "TransformerLm"⟩
        false)).lookupKey (layerKey "lm" ⟨"praxis.layers", "TransformerLm"⟩)
      = some ⟨⟨"praxis.layers", "TransformerLm"⟩, false⟩ ∧
    (getRegistry ⟨⟩ (addLayer ⟨⟩ (addLayer ⟨⟩ [] "lm"
        ⟨"praxis.layers", "TransformerLm"⟩ false) "lm"
        ⟨"praxis.layers", "Lm2"⟩ true)).lookupKey
        (layerKey "lm" ⟨"praxis.layers", "TransformerLm"⟩)
      = some ⟨⟨"praxis.layers", "Lm2"⟩, true⟩ ∧
    (getRegistry ⟨⟩ (addLayer ⟨⟩ [] "lm" ⟨"praxis.layers", "TransformerLm"⟩
        false)).lookupKey "other" = Registry.lookupKey [] "other" := by
  obtain ⟨h1, h2, h3⟩ := layer_registry_shared_state [] ⟨⟩ ⟨⟩ ⟨⟩ "lm"
    ⟨"praxis.layers", "TransformerLm"⟩ ⟨"praxis.layers", "Lm2"⟩ false true
  exact ⟨h1, h2 rfl, h3 "other" (by decide)⟩

/-- With a configured `max_decode_steps` whenever `fprop_for_prefix` is
set, the decode initializer succeeds. -/
theorem lmInitFor_isOk (c : DecoderParamsBase) (batch : LmInputBatch)
    (pl : List Int)
    (hm : c.fpropForPrefix = true → c.maxDecodeSteps ≠ none) :
    ∃ init, lmInitFor c batch pl = .ok init := by
  rw [lmInitFor]
  cases hf : c.fpropForPrefix with
  | false => simp
  | true =>
      cases hmd : c.maxDecodeSteps with
      | none => exact absurd hmd (hm hf)
      | some m => simp

/-- Rows of the right-aligned prefix buffers keep length `L`. -/
theorem rightAlign_row_length (ids : List (List Int)) (pl : List Int)
    (L : Nat) (hrect : ∀ row ∈ ids, row.length = L)
    (hbnd : ∀ n ∈ pl, 0 ≤ n ∧ n ≤ (L : Int)) :
    (∀ row ∈ (rightAlignPrefixIds ids pl).1, row.length = L) ∧
    (∀ row ∈ (rightAlignPrefixIds ids pl).2, row.length = L) := by
  constructor <;> intro row hrow
  · simp only [rightAlignPrefixIds] at hrow
    obtain ⟨rp, hrp, rfl⟩ := List.mem_map.mp hrow
    obtain ⟨hr, hn⟩ := List.of_mem_zip hrp
    have hL : rp.1.length = L := hrect rp.1 hr
    have hk : rp.2.toNat ≤ L := Int.toNat_le.mpr (hbnd rp.2 hn).2
    rw [List.length_append, List.length_replicate, List.length_take, hL]
    omega
  · simp only [rightAlignPrefixIds] at hrow
    obtain ⟨rp, hrp, rfl⟩ := List.mem_map.mp hrow
    obtain ⟨hr, hn⟩ := List.of_mem_zip hrp
    have hL : rp.1.length = L := hrect rp.1 hr
    have hk : rp.2.toNat ≤ L := Int.toNat_le.mpr (hbnd rp.2 hn).2
    rw [List.length_append, List.length_replicate, List.length_replicate, hL]
    omega

/-- C1: for every input batch, `LanguageModel.decode` invokes exactly
the one search strategy determined by the concrete decoder variant
(FlatBeam, Beam, Sample or Greedy), and for a `DecoderHParams` that is
none of the four variants it raises `NotImplementedError` and returns no
result. -/
theorem lm_decode_single_strategy_dispatch (batch : LmInputBatch)
    (rand : Nat → Int → Int → Int) (d : DecoderHParams)
    (hseq : 0 < d.common.seqlen)
    (hmds : d.common.fpropForPrefix = true → d.common.maxDecodeSteps ≠ none)
    (hbeam : d.isBeamVariant = true → d.common.fpropForPrefix = true) :
    (∀ kind, d.expectedKind = some kind →
      ∃ init call,
        languageModelDecode (.valid d) batch rand = .ok (init, call) ∧
        call.kind = kind) ∧
    (d.expectedKind = none →
      languageModelDecode (.valid d) batch rand
        = .error (.notImplementedError
            "Decoding algorithm is not implemented.")) := by
  obtain ⟨init, hinit⟩ := lmInitFor_isOk d.common batch
    (lmPrefixLengths batch d.common.minPrefixLen rand) hmds
  have hif : ¬(d.common.seqlen ≤ 0) := not_le.mpr hseq
  cases d with
  | flatBeam c b =>
      refine ⟨?_, ?_⟩
      · intro kind hk
        injection hk with hk2
        subst hk2
        simp only [languageModelDecode, DecoderHParams.common] at hif hinit ⊢
        rw [if_neg hif]
        simp only [hinit, lmDispatch]
        exact ⟨init, _, rfl, rfl⟩
      · intro h; cases h
  | beam c b =>
      have hfp : c.fpropForPrefix = true := hbeam rfl
      refine ⟨?_, ?_⟩
      · intro kind hk
        injection hk with hk2
        subst hk2
        simp only [languageModelDecode, DecoderHParams.common] at hif hinit ⊢
        rw [if_neg hif]
        simp only [hinit, lmDispatch, hfp, if_true]
        exact ⟨init, _, rfl, rfl⟩
      · intro h; cases h
  | sample c s =>
      refine ⟨?_, ?_⟩
      · intro kind hk
        injection hk with hk2
        subst hk2
        simp only [languageModelDecode, DecoderHParams.common] at hif hinit ⊢
        rw [if_neg hif]
        simp only [hinit, lmDispatch]
        exact ⟨init, _, rfl, rfl⟩
      · intro h; cases h
  | greedy c =>
      refine ⟨?_, ?_⟩
      · intro kind hk
        injection hk with hk2
        subst hk2
        simp only [languageModelDecode, DecoderHParams.common] at hif hinit ⊢
        rw [if_neg hif]
        simp only [hinit, lmDispatch]
        exact ⟨init, _, rfl, rfl⟩
      · intro h; cases h
  | base c =>
      refine ⟨?_, ?_⟩
      · intro kind hk; cases hk
      · intro _
        simp only [languageModelDecode, DecoderHParams.common] at hif hinit ⊢
        rw [if_neg hif]
        simp only [hinit, lmDispatch]

/-- Witness for C1 at a concrete batch and a greedy decoder
configuration with `seqlen = 5`. -/
theorem lm_decode_single_strategy_dispatch_witness :
    (∀ kind,
      (DecoderHParams.greedy ⟨5, 0, none, false, 0⟩).expectedKind = some kind →
      ∃ init call,
        languageModelDecode (.valid (.greedy ⟨5, 0, none, false, 0⟩))
            ⟨[[5, 6]], [[0, 0]], some [1], none, none⟩ (fun _ lo _ => lo)
          = .ok (init, call) ∧ call.kind = kind) ∧
    ((DecoderHParams.greedy ⟨5, 0, none, false, 0⟩).expectedKind = none →
      languageModelDecode (.valid (.greedy ⟨5, 0, none, false, 0⟩))
          ⟨[[5, 6]], [[0, 0]], some [1], none, none⟩ (fun _ lo _ => lo)
        = .error (.notImplementedError
            "Decoding algorithm is not implemented.")) :=
  lm_decode_single_strategy_dispatch
    ⟨[[5, 6]], [[0, 0]], some [1], none, none⟩ (fun _ lo _ => lo)
    (.greedy ⟨5, 0, none, false, 0⟩) (by decide) (by decide) (by decide)

/-- C2: configuration errors are fatal and produce no result: an invalid
decoder type and a non-positive `seqlen` raise `ValueError` in
`LanguageModel.decode`, a missing `max_decode_steps` under
`fprop_for_prefix` fails the `asserts.not_none` assertion, and
`SequenceModel.decode` raises `ValueError` on non-positive `seqlen`. -/
theorem configuration_errors_fatal (batch : LmInputBatch)
    (rand : Nat → Int → Int → Int) (d : DecoderHParams) :
    (languageModelDecode .notDecoderType batch rand
      = .error (.valueError "p.decoder must be DecoderHParams type")) ∧
    (d.common.seqlen ≤ 0 →
      languageModelDecode (.valid d) batch rand
        = .error (.valueError "Must set p.decoder.seqlen > 0")) ∧
    (0 < d.common.seqlen → d.common.fpropForPrefix = true →
      d.common.maxDecodeSteps = none →
      languageModelDecode (.valid d) batch rand = .error .assertionError) ∧
    (∀ (α : Type) (inputBatch : NMap α) (seqlen : Int) (o dl pl lp : α),
      seqlen ≤ 0 →
      sequenceModelDecode seqlen inputBatch o dl pl lp
        = .error (.valueError "Must set p.decoder.seqlen > 0")) := by
  refine ⟨rfl, ?_, ?_, ?_⟩
  · intro h
    simp only [languageModelDecode]
    rw [if_pos h]
  · intro hpos hf hnone
    simp only [languageModelDecode]
    rw [if_neg (not_le.mpr hpos)]
    simp only [lmInitFor, hf, hnone, if_true]
  · intro α inputBatch seqlen o dl pl lp h
    rw [sequenceModelDecode, if_pos h]

/-- Witness for C2 at concrete configurations triggering each of the
four error conditions. -/
theorem configuration_errors_fatal_witness :
    (languageModelDecode .notDecoderType
        ⟨[[5]], [[0]], some [1], none, none⟩ (fun _ lo _ => lo)
      = .error (.valueError "p.decoder must be DecoderHParams type")) ∧
    (languageModelDecode (.valid (.greedy ⟨0, 0, none, false, 0⟩))
        ⟨[[5]], [[0]], some [1], none, none⟩ (fun _ lo _ => lo)
      = .error (.valueError "Must set p.decoder.seqlen > 0")) ∧
    (languageModelDecode (.valid (.greedy ⟨5, 0, none, true, 0⟩))
        ⟨[[5]], [[0]], some [1], none, none⟩ (fun _ lo _ => lo)
      = .error .assertionError) ∧
    (sequenceModelDecode 0 ([("src", 0), ("tgt", 1)] : NMap Nat) 9 8 7 6
      = .error (.valueError "Must set p.decoder.seqlen > 0")) :=
  ⟨(configuration_errors_fatal ⟨[[5]], [[0]], some [1], none, none⟩
      (fun _ lo _ => lo) (.greedy ⟨0, 0, none, false, 0⟩)).1,
   (configuration_errors_fatal ⟨[[5]], [[0]], some [1], none, none⟩
      (fun _ lo _ => lo) (.greedy ⟨0, 0, none, false, 0⟩)).2.1 (by decide),
   (configuration_errors_fatal ⟨[[5]], [[0]], some [1], none, none⟩
      (fun _ lo _ => lo) (.greedy ⟨5, 0, none, true, 0⟩)).2.2.1
      (by decide) rfl rfl,
   (configuration_errors_fatal ⟨[[5]], [[0]], some [1], none, none⟩
      (fun _ lo _ => lo) (.greedy ⟨5, 0, none, true, 0⟩)).2.2.2
      Nat [("src", 0), ("tgt", 1)] 0 9 8 7 6 (by decide)⟩

/-- C3: with `fprop_for_prefix` set, `LanguageModel.decode` builds a
segment-id mask assigning segment 0 to position `j` exactly when
`j < max_prefix_len - prefix_lengths[i]` and segment 1 otherwise, sets
`start_time_step = max_prefix_len - 1`, sets the total sequence length
to `max_prefix_len + max_decode_steps`, and the input id/padding buffers
are extended to rows of that length. -/
theorem fprop_prefix_right_alignment (batch : LmInputBatch)
    (rand : Nat → Int → Int → Int) (c : DecoderParamsBase) (m : Int)
    (pl : List Int)
    (hseq : 0 < c.seqlen) (hf : c.fpropForPrefix = true)
    (hm : c.maxDecodeSteps = some m)
    (hpl : batch.prefixLengths = some pl)
    (hrect : ∀ row ∈ batch.ids, row.length = lmMaxPrefixLen batch)
    (hbnd : ∀ n ∈ pl, 0 ≤ n ∧ n ≤ (lmMaxPrefixLen batch : Int)) :
    ∃ init call,
      languageModelDecode (.valid (.greedy c)) batch rand
        = .ok (init, call) ∧
      init.startTimeStep = (lmMaxPrefixLen batch : Int) - 1 ∧
      init.seqlen = (lmMaxPrefixLen batch : Int) + m ∧
      init.fpropSegmentIds
        = some (fpropSegmentIdsOf pl (lmMaxPrefixLen batch)) ∧
      (∀ i j : Nat, i < pl.length → j < lmMaxPrefixLen batch →
        ((fpropSegmentIdsOf pl (lmMaxPrefixLen batch)).getD i []).getD j 0
          = if (j : Int) < (lmMaxPrefixLen batch : Int) - pl.getD i 0 then 0
            else 1) ∧
      (∀ row ∈ init.inputIds,
        row.length = lmMaxPrefixLen batch + m.toNat) ∧
      (∀ row ∈ init.inputPaddings,
        row.length = lmMaxPrefixLen batch + m.toNat) := by
  have hplen : lmPrefixLengths batch c.minPrefixLen rand = pl := by
    simp [lmPrefixLengths, hpl]
  have hinit : lmInitFor c batch pl
      = .ok ⟨pl, lmMaxPrefixLen batch, (lmMaxPrefixLen batch : Int) + m,
          (lmMaxPrefixLen batch : Int) - 1,
          (rightAlignPrefixIds batch.ids pl).1,
          (rightAlignPrefixIds batch.ids pl).2,
          some (fpropSegmentIdsOf pl (lmMaxPrefixLen batch)),
          some (rightAlignSegmentPos pl (lmMaxPrefixLen batch)),
          pad2D (rightAlignPrefixIds batch.ids pl).1 m.toNat 0,
          pad2D (rightAlignPrefixIds batch.ids pl).2 m.toNat 1, m⟩ := by
    simp [lmInitFor, hf, hm]
  obtain ⟨hlen1, hlen2⟩ :=
    rightAlign_row_length batch.ids pl (lmMaxPrefixLen batch) hrect hbnd
  refine ⟨⟨pl, lmMaxPrefixLen batch, (lmMaxPrefixLen batch : Int) + m,
      (lmMaxPrefixLen batch : Int) - 1,
      (rightAlignPrefixIds batch.ids pl).1,
      (rightAlignPrefixIds batch.ids pl).2,
      some (fpropSegmentIdsOf pl (lmMaxPrefixLen batch)),
      some (rightAlignSegmentPos pl (lmMaxPrefixLen batch)),
      pad2D (rightAlignPrefixIds batch.ids pl).1 m.toNat 0,
      pad2D (rightAlignPrefixIds batch.ids pl).2 m.toNat 1, m⟩,
    .greedyDecode (pad2D (rightAlignPrefixIds batch.ids pl).1 m.toNat 0)
      (pad2D (rightAlignPrefixIds batch.ids pl).2 m.toNat 1)
      ((lmMaxPrefixLen batch : Int) + m) c.fpropForPrefix
      (lmMaxPrefixLen batch : Int) c.maxDecodeSteps pl c.eosId,
    ?_, rfl, rfl, rfl, ?_, ?_, ?_⟩
  · simp only [languageModelDecode, DecoderHParams.common]
    rw [if_neg (not_le.mpr hseq)]
    simp only [hplen, hinit, lmDispatch]
  · intro i j hi hj
    rw [fpropSegmentIdsOf, getD_map_of_lt _ pl i 0 [] hi,
      getD_map_range _ _ j 0 hj]
  · intro row hrow
    simp only [pad2D] at hrow
    obtain ⟨row0, hrow0, rfl⟩ := List.mem_map.mp hrow
    rw [List.length_append, List.length_replicate, hlen1 row0 hrow0]
  · intro row hrow
    simp only [pad2D] at hrow
    obtain ⟨row0, hrow0, rfl⟩ := List.mem_map.mp hrow
    rw [List.length_append, List.length_replicate, hlen2 row0 hrow0]

/-- Witness for C3 at the spec's concrete scenario:
`prefix_lengths = [3]`, `max_prefix_len = 5`, `max_decode_steps = 2`. -/
theorem fprop_prefix_right_alignment_witness :
    ∃ init call,
      languageModelDecode (.valid (.greedy ⟨6, 0, some 2, true, 0⟩))
          ⟨[[7, 8, 9, 10, 11]], [[0, 0, 0, 0, 0]], some [3], none, none⟩
          (fun _ lo _ => lo)
        = .ok (init, call) ∧
      init.startTimeStep = ((lmMaxPrefixLen
          ⟨[[7, 8, 9, 10, 11]], [[0, 0, 0, 0, 0]], some [3], none, none⟩
          : Nat) : Int) - 1 ∧
      init.seqlen = ((lmMaxPrefixLen
          ⟨[[7, 8, 9, 10, 11]], [[0, 0, 0, 0, 0]], some [3], none, none⟩
          : Nat) : Int) + 2 ∧
      init.fpropSegmentIds
        = some (fpropSegmentIdsOf [3] (lmMaxPrefixLen
            ⟨[[7, 8, 9, 10, 11]], [[0, 0, 0, 0, 0]], some [3], none,
              none⟩)) ∧
      (∀ i j : Nat, i < ([3] : List Int).length →
        j < lmMaxPrefixLen
            ⟨[[7, 8, 9, 10, 11]], [[0, 0, 0, 0, 0]], some [3], none, none⟩ →
        ((fpropSegmentIdsOf [3] (lmMaxPrefixLen
            ⟨[[7, 8, 9, 10, 11]], [[0, 0, 0, 0, 0]], some [3], none,
              none⟩)).getD i []).getD j 0
          = if (j : Int) < ((lmMaxPrefixLen
                ⟨[[7, 8, 9, 10, 11]], [[0, 0, 0, 0, 0]], some [3], none,
                  none⟩ : Nat) : Int) - ([3] : List Int).getD i 0 then 0
            else 1) ∧
      (∀ row ∈ init.inputIds,
        row.length = lmMaxPrefixLen
            ⟨[[7, 8, 9, 10, 11]], [[0, 0, 0, 0, 0]], some [3], none, none⟩
          + (2 : Int).toNat) ∧
      (∀ row ∈ init.inputPaddings,
        row.length = lmMaxPrefixLen
            ⟨[[7, 8, 9, 10, 11]], [[0, 0, 0, 0, 0]], some [3], none, none⟩
          + (2 : Int).toNat) :=
  fprop_prefix_right_alignment
    ⟨[[7, 8, 9, 10, 11]], [[0, 0, 0, 0, 0]], some [3], none, none⟩
    (fun _ lo _ => lo) ⟨6, 0, some 2, true, 0⟩ 2 [3]
    (by decide) rfl rfl rfl (by decide) (by decide)

/-- C4: when the batch carries no `prefix_lengths`, every drawn prefix
length lies in the inclusive range `[min(maxval, min_prefix_len),
maxval]` with `maxval` the row's non-padding token count summed in
integer arithmetic, for any draw function honouring the half-open
`randint` contract; a supplied `prefix_lengths` is used unchanged. -/
theorem prefix_length_sampling_range (batch : LmInputBatch)
    (minPrefixLen : Int) (rand : Nat → Int → Int → Int)
    (hr : ∀ i lo hi, lo < hi → lo ≤ rand i lo hi ∧ rand i lo hi < hi) :
    (batch.prefixLengths = none →
      ∀ i, i < batch.batchSize →
        min (rowMaxval batch.paddings i) minPrefixLen
            ≤ (lmPrefixLengths batch minPrefixLen rand).getD i 0 ∧
        (lmPrefixLengths batch minPrefixLen rand).getD i 0
            ≤ rowMaxval batch.paddings i) ∧
    (∀ pl, batch.prefixLengths = some pl →
      lmPrefixLengths batch minPrefixLen rand = pl) := by
  constructor
  · intro hnone i hi
    simp only [lmPrefixLengths, hnone]
    rw [getD_map_range _ _ i 0 hi]
    have hlt : min (rowMaxval batch.paddings i) minPrefixLen
        < rowMaxval batch.paddings i + 1 :=
      lt_of_le_of_lt (min_le_left _ _) (lt_add_one _)
    obtain ⟨h1, h2⟩ := hr i _ _ hlt
    exact ⟨h1, by omega⟩
  · intro pl hpl
    simp [lmPrefixLengths, hpl]

/-- Witness for C4 at a two-row batch with paddings `[[0,0,1],[0,1,1]]`
(non-padding counts 2 and 1) and the draw that returns the lower
bound. -/
theorem prefix_length_sampling_range_witness :
    ((⟨[[5, 6, 7], [5, 0, 0]], [[0, 0, 1], [0, 1, 1]], none, none, none⟩
        : LmInputBatch).prefixLengths = none →
      ∀ i, i < (⟨[[5, 6, 7], [5, 0, 0]], [[0, 0, 1], [0, 1, 1]], none,
          none, none⟩ : LmInputBatch).batchSize →
        min (rowMaxval [[0, 0, 1], [0, 1, 1]] i) 2
            ≤ (lmPrefixLengths ⟨[[5, 6, 7], [5, 0, 0]],
                [[0, 0, 1], [0, 1, 1]], none, none, none⟩ 2
                (fun _ lo _ => lo)).getD i 0 ∧
        (lmPrefixLengths ⟨[[5, 6, 7], [5, 0, 0]],
            [[0, 0, 1], [0, 1, 1]], none, none, none⟩ 2
            (fun _ lo _ => lo)).getD i 0
          ≤ rowMaxval [[0, 0, 1], [0, 1, 1]] i) ∧
    (∀ pl, (⟨[[5, 6, 7], [5, 0, 0]], [[0, 0, 1], [0, 1, 1]], none, none,
        none⟩ : LmInputBatch).prefixLengths = some pl →
      lmPrefixLengths ⟨[[5, 6, 7], [5, 0, 0]], [[0, 0, 1], [0, 1, 1]],
          none, none, none⟩ 2 (fun _ lo _ => lo) = pl) :=
  prefix_length_sampling_range
    ⟨[[5, 6, 7], [5, 0, 0]], [[0, 0, 1], [0, 1, 1]], none, none, none⟩ 2
    (fun _ lo _ => lo) (fun _ lo _ h => ⟨le_refl lo, h⟩)

/-- C7 counterexample: without `fprop_for_prefix`, the dummy fprop step
of `LanguageModel.decode` carries padding value 1, i.e. it is marked as
a padded step, not an unpadded one (padding value 0). -/
theorem dummy_fprop_step_counterexample :
    (languageModelDecode (.valid (.greedy ⟨3, 0, none, false, 0⟩))
        ⟨[[5]], [[0]], some [1], none, none⟩ (fun _ lo _ => lo)).map
      (fun pr => pr.1.fpropInputPaddings) = .ok [[(1 : ℚ)]] ∧
    (1 : ℚ) ≠ 0 := by
  constructor
  · rfl
  · norm_num

/-- C7 (amended): without `fprop_for_prefix` there is no
right-alignment: `start_time_step = 0`, the configured `seqlen` is used
directly, the decode inputs are the batch's own ids and paddings, and
the forward-prop input for cache priming is a single dummy step per row
whose padding value 1 marks it as padded. -/
theorem no_fprop_prefix_init (batch : LmInputBatch)
    (rand : Nat → Int → Int → Int) (c : DecoderParamsBase)
    (hseq : 0 < c.seqlen) (hf : c.fpropForPrefix = false) :
    ∃ call,
      languageModelDecode (.valid (.greedy c)) batch rand
        = .ok (⟨lmPrefixLengths batch c.minPrefixLen rand,
            lmMaxPrefixLen batch, c.seqlen, 0,
            List.replicate batch.batchSize [(0 : Int)],
            List.replicate batch.batchSize [(1 : ℚ)], none, none,
            batch.ids, batch.paddings, c.seqlen - 1⟩, call) := by
  have hinit : lmInitFor c batch
      (lmPrefixLengths batch c.minPrefixLen rand)
      = .ok ⟨lmPrefixLengths batch c.minPrefixLen rand,
          lmMaxPrefixLen batch, c.seqlen, 0,
          List.replicate batch.batchSize [(0 : Int)],
          List.replicate batch.batchSize [(1 : ℚ)], none, none,
          batch.ids, batch.paddings, c.seqlen - 1⟩ := by
    simp [lmInitFor, hf]
  refine ⟨.greedyDecode batch.ids batch.paddings c.seqlen c.fpropForPrefix
    (lmMaxPrefixLen batch : Int) c.maxDecodeSteps
    (lmPrefixLengths batch c.minPrefixLen rand) c.eosId, ?_⟩
  simp only [languageModelDecode, DecoderHParams.common]
  rw [if_neg (not_le.mpr hseq)]
  simp only [hinit, lmDispatch]

/-- Witness for C7 at a concrete one-row batch. -/
theorem no_fprop_prefix_init_witness :
    ∃ call,
      languageModelDecode (.valid (.greedy ⟨3, 0, none, false, 0⟩))
          ⟨[[5]], [[0]], some [1], none, none⟩ (fun _ lo _ => lo)
        = .ok (⟨lmPrefixLengths ⟨[[5]], [[0]], some [1], none, none⟩ 0
            (fun _ lo _ => lo),
            lmMaxPrefixLen ⟨[[5]], [[0]], some [1], none, none⟩, 3, 0,
            List.replicate (LmInputBatch.batchSize
              ⟨[[5]], [[0]], some [1], none, none⟩) [(0 : Int)],
            List.replicate (LmInputBatch.batchSize
              ⟨[[5]], [[0]], some [1], none, none⟩) [(1 : ℚ)], none, none,
            [[5]], [[0]], 3 - 1⟩, call) :=
  no_fprop_prefix_init ⟨[[5]], [[0]], some [1], none, none⟩
    (fun _ lo _ => lo) ⟨3, 0, none, false, 0⟩ (by decide) rfl

/-- C9: with a Sample decoder and `lazy_prefix_broadcast = False`, a
batch carrying `suffix` and `suffix_lengths` raises no error: the
suffix is silently dropped, decoding proceeds exactly as if no suffix
had been supplied, and the sampler receives suffix ids only when both
fields are present and `lazy_prefix_broadcast` is `True`. -/
theorem sample_suffix_requires_lazy_broadcast (batch : LmInputBatch)
    (rand : Nat → Int → Int → Int) (c : DecoderParamsBase)
    (s : SampleFields) (hseq : 0 < c.seqlen)
    (hmds : c.fpropForPrefix = true → c.maxDecodeSteps ≠ none)
    (hlazy : s.lazyPrefixBroadcast = false)
    (sfx : List (List Int)) (sfxLen : List Int)
    (hs : batch.suffix = some sfx)
    (hsl : batch.suffixLengths = some sfxLen) :
    languageModelDecode (.valid (.sample c s)) batch rand
      = languageModelDecode (.valid (.sample c s))
          ⟨batch.ids, batch.paddings, batch.prefixLengths, none, none⟩
          rand ∧
    (∃ init call,
      languageModelDecode (.valid (.sample c s)) batch rand
        = .ok (init, call) ∧ call.suffixIdsArg = none) ∧
    (∀ (b2 : LmInputBatch) (s2 : SampleFields) (init2 : DecodeInit)
        (call2 : StrategyCall),
      languageModelDecode (.valid (.sample c s2)) b2 rand
        = .ok (init2, call2) →
      call2.suffixIdsArg ≠ none →
      s2.lazyPrefixBroadcast = true ∧ b2.suffix ≠ none ∧
        b2.suffixLengths ≠ none) := by
  obtain ⟨ids, paddings, plo, so, slo⟩ := batch
  simp only at hs hsl
  subst hs
  subst hsl
  refine ⟨?_, ?_, ?_⟩
  · simp [languageModelDecode, lmPrefixLengths, lmInitFor, lmDispatch,
      lmMaxPrefixLen, LmInputBatch.batchSize, hlazy]
  · obtain ⟨init, hinit⟩ := lmInitFor_isOk c
      ⟨ids, paddings, plo, some sfx, some sfxLen⟩
      (lmPrefixLengths ⟨ids, paddings, plo, some sfx, some sfxLen⟩
        c.minPrefixLen rand) hmds
    refine ⟨init, .sampleDecode init.inputIds init.inputPaddings
      init.seqlen s.numSamples s.k c.fpropForPrefix s.temperature
      (init.maxPrefixLen : Int) c.maxDecodeSteps init.prefixLengths
      c.eosId none none, ?_, rfl⟩
    simp only [languageModelDecode, DecoderHParams.common]
    rw [if_neg (not_le.mpr hseq)]
    simp only [hinit, lmDispatch, hlazy, Bool.false_eq_true, if_false]
  · intro b2 s2 init2 call2 hdec hne
    obtain ⟨ids2, pads2, plo2, so2, slo2⟩ := b2
    simp only [languageModelDecode, DecoderHParams.common] at hdec
    rw [if_neg (not_le.mpr hseq)] at hdec
    cases hinit2 : lmInitFor c ⟨ids2, pads2, plo2, so2, slo2⟩
        (lmPrefixLengths ⟨ids2, pads2, plo2, so2, slo2⟩
          c.minPrefixLen rand) with
    | error e => rw [hinit2] at hdec; cases hdec
    | ok init3 =>
        rw [hinit2] at hdec
        simp only [lmDispatch] at hdec
        cases so2 with
        | none =>
            simp only [Except.ok.injEq, Prod.mk.injEq] at hdec
            rw [← hdec.2] at hne
            exact absurd rfl hne
        | some sfx2 =>
            cases slo2 with
            | none =>
                simp only [Except.ok.injEq, Prod.mk.injEq] at hdec
                rw [← hdec.2] at hne
                exact absurd rfl hne
            | some sfxLen2 =>
                cases hlz : s2.lazyPrefixBroadcast with
                | false =>
                    simp only [hlz, Bool.false_eq_true, if_false,
                      Except.ok.injEq, Prod.mk.injEq] at hdec
                    rw [← hdec.2] at hne
                    exact absurd rfl hne
                | true =>
                    exact ⟨rfl, fun h => Option.noConfusion h,
                      fun h => Option.noConfusion h⟩

/-- Witness for C9 at a concrete one-row batch with a suffix and a
non-lazy sampler configuration. -/
theorem sample_suffix_requires_lazy_broadcast_witness :
    languageModelDecode
        (.valid (.sample ⟨3, 0, none, false, 0⟩ ⟨2, 40, 1, false⟩))
        ⟨[[5]], [[0]], some [1], some [[9]], some [1]⟩ (fun _ lo _ => lo)
      = languageModelDecode
          (.valid (.sample ⟨3, 0, none, false, 0⟩ ⟨2, 40, 1, false⟩))
          ⟨[[5]], [[0]], some [1], none, none⟩ (fun _ lo _ => lo) ∧
    (∃ init call,
      languageModelDecode
          (.valid (.sample ⟨3, 0, none, false, 0⟩ ⟨2, 40, 1, false⟩))
          ⟨[[5]], [[0]], some [1], some [[9]], some [1]⟩ (fun _ lo _ => lo)
        = .ok (init, call) ∧ call.suffixIdsArg = none) ∧
    (∀ (b2 : LmInputBatch) (s2 : SampleFields) (init2 : DecodeInit)
        (call2 : StrategyCall),
      languageModelDecode (.valid (.sample ⟨3, 0, none, false, 0⟩ s2)) b2
          (fun _ lo _ => lo) = .ok (init2, call2) →
      call2.suffixIdsArg ≠ none →
      s2.lazyPrefixBroadcast = true ∧ b2.suffix ≠ none ∧
        b2.suffixLengths ≠ none) :=
  sample_suffix_requires_lazy_broadcast
    ⟨[[5]], [[0]], some [1], some [[9]], some [1]⟩ (fun _ lo _ => lo)
    ⟨3, 0, none, false, 0⟩ ⟨2, 40, 1, false⟩ (by decide) (by decide) rfl
    [[9]] [1] rfl rfl

end Praxis
